import Mathlib

/-!
Verification of the CipherLink end-to-end-encryption core.

The repository composes host (Web Crypto) primitives; per the spec (§4.1) the
host library is an external collaborator exposing ideal primitives (secure
randomness, ECDH key agreement, AES-GCM AEAD, PBKDF2, SHA-2).  Those
primitives are modelled here from the spec's contract (see the doc comments
marked "Modelled from the spec"); every composition above them —
IV handling, blob shapes, key-vault wrapping, channel addressing,
message sealing/opening, and the auth-store formulas — is translated
directly from the source (src/unnamed/part_002, src/unnamed/part_007,
src/cipherLink/client/src/stores/authStore.js).

Randomness (crypto.getRandomValues) is made explicit: functions that draw a
fresh IV in the source take the IV as an explicit argument here.
Asynchronous functions are pure in the source (§5); they are plain
functions here, and a thrown exception is an Option none.
-/

namespace CipherLink

/-- Injective packing of a list of naturals into one natural, by iterated
Cantor pairing.  Infrastructure for the idealized primitives below. -/
def natListCode : List Nat → Nat
  | [] => 0
  | b :: t => Nat.pair b (natListCode t) + 1

/-- Injective packing of a string into one natural (its code points,
packed with natListCode). -/
def strCode (s : String) : Nat := natListCode (s.data.map Char.toNat)

/-- Little-endian binary digits of a natural, as characters, empty for 0. -/
def natChars : Nat → List Char
  | 0 => []
  | n + 1 => (if (n + 1) % 2 = 1 then '1' else '0') :: natChars ((n + 1) / 2)
termination_by n => n
decreasing_by simp_wf; omega

/-- Value of a little-endian binary digit string (non-digit characters
count as 0). -/
def charsNat : List Char → Nat
  | [] => 0
  | c :: t => (if c = '1' then 1 else 0) + 2 * charsNat t

/-- Serialization of a byte sequence into characters: each element in
little-endian binary followed by a separator. -/
def bytesChars : List Nat → List Char
  | [] => []
  | b :: t => natChars b ++ ',' :: bytesChars t

/-- Parser for bytesChars output: accumulates the current element with its
place value, closing an element at each separator. -/
def charsBytesAux : List Char → Nat → Nat → Option (List Nat)
  | [], _, _ => none
  | c :: rest, acc, pw =>
    if c = ',' then
      match rest with
      | [] => some [acc]
      | r :: rs => Option.map (fun t => acc :: t) (charsBytesAux (r :: rs) 0 1)
    else
      charsBytesAux rest (acc + (if c = '1' then 1 else 0) * pw) (2 * pw)

/-- Total decoder for bytesChars: the empty string decodes to the empty
sequence, anything else is parsed by charsBytesAux. -/
def charsBytes : List Char → Option (List Nat)
  | [] => some []
  | c :: rest => charsBytesAux (c :: rest) 0 1

/-- Modelled from the spec: the transport encoding of an EncryptedBlob
("concatenated and base64-encoded as a single opaque string", §3), i.e. the
host btoa composed with the source's arrayBufferToBase64 loop.  The model
requires an injective encoding of the byte sequence into an opaque string
with a total decoder; since the idealized AEAD tag below is an unbounded
natural, a digit encoding stands in for base64. -/
def blobOfBytes (bs : List Nat) : String := String.mk (bytesChars bs)

/-- Modelled from the spec: inverse transport decoding (host atob composed
with the source's base64ToArrayBuffer loop); fails on a malformed blob. -/
def bytesOfBlob (s : String) : Option (List Nat) := charsBytes s.data

/-- Modelled from the spec: the AES-GCM keystream byte at position i under
a key and an IV (packed as a natural).  Any fixed function works for the
ideal cipher; confidentiality is not a provable property and none of the
claims state it. -/
def ksByte (key ivN i : Nat) : Nat := key + ivN + i

/-- Keystream addition: element i of the ciphertext is plaintext element i
plus the keystream byte. -/
def ksEnc (key ivN : Nat) : List Nat → Nat → List Nat
  | [], _ => []
  | b :: t, i => (b + ksByte key ivN i) :: ksEnc key ivN t (i + 1)

/-- Keystream removal, inverse of ksEnc. -/
def ksDec (key ivN : Nat) : List Nat → Nat → List Nat
  | [], _ => []
  | b :: t, i => (b - ksByte key ivN i) :: ksDec key ivN t (i + 1)

/-- Modelled from the spec: the GCM authentication tag ("encryption mode
that also guarantees tamper detection via an authentication tag", glossary;
"AEAD integrity is mandatory", §4.4).  Idealized as a perfectly
collision-free MAC: an injective function of key, IV and plaintext, carried
as one unbounded element. -/
def macTag (key ivN : Nat) (pt : List Nat) : Nat :=
  Nat.pair key (Nat.pair ivN (natListCode pt))

/-- Modelled from the spec: host AEAD encryption (crypto.subtle.encrypt,
AES-GCM): keystream-masked plaintext followed by the authentication tag. -/
def aeadEncrypt (key ivN : Nat) (pt : List Nat) : List Nat :=
  ksEnc key ivN pt 0 ++ [macTag key ivN pt]

/-- Modelled from the spec: host AEAD decryption (crypto.subtle.decrypt,
AES-GCM): recovers the candidate plaintext and accepts only if the whole
input re-encrypts to itself (tag verification); a thrown exception is
none. -/
def aeadDecrypt (key ivN : Nat) (data : List Nat) : Option (List Nat) :=
  let pt := ksDec key ivN data.dropLast 0
  if aeadEncrypt key ivN pt = data then some pt else none

/-! Configuration constants, from src/unnamed/part_002 lines 20-25. -/

def ECDH_CURVE : String := "P-521"

def AES_ALGORITHM : String := "AES-GCM"

def AES_KEY_LENGTH : Nat := 256

def PBKDF2_ITERATIONS_CLIENT : Nat := 25000

def PBKDF2_HASH : String := "SHA-512"

def IV_LENGTH : Nat := 12

/-- Conversion of a string to its byte sequence (src part_002 line 58,
TextEncoder).  Modelled from the spec: the host UTF-8 codec is a bijection
between strings and their encodings; the model identifies the encoding of a
string with its code-point sequence. -/
def stringToArrayBuffer (str : String) : List Nat := str.data.map Char.toNat

/-- Conversion of a byte sequence back to a string (src part_002 line 65,
TextDecoder), inverse of stringToArrayBuffer on its range. -/
def arrayBufferToString (buffer : List Nat) : String :=
  String.mk (buffer.map Char.ofNat)

/-- Hex rendering of a derived value (src part_002 line 72,
arrayBufferToHex applied to a digest / derived bits, here represented by a
single natural). -/
def natToHex (n : Nat) : String := String.mk (Nat.toDigits 16 n)

/-- Modelled from the spec: the host SHA-256 digest (src part_002 line 106
wraps crypto.subtle.digest and hex-encodes).  Idealized as a perfectly
collision-free hash: an injective function of the input, hex-encoded. -/
def sha256 (data : String) : String := natToHex (Nat.pair 256 (strCode data))

/-- Modelled from the spec: the host PBKDF2 bit derivation
(crypto.subtle.deriveBits, §4.1: "pbkdf2(password, salt, iterations,
hashAlg, outputBits) -> bytes").  Idealized as an injective function of all
five inputs, returning the derived bits as one natural. -/
def pbkdf2Bits (password salt : String) (iterations keyLength : Nat)
    (hashAlg : String) : Nat :=
  Nat.pair (strCode password)
    (Nat.pair (strCode salt)
      (Nat.pair iterations (Nat.pair keyLength (strCode hashAlg))))

/-- PBKDF2 derivation returned hex-encoded, from src part_002 lines 139-162
(deriveBits with PBKDF2_HASH, then arrayBufferToHex). -/
def pbkdf2 (password salt : String) (iterations keyLength : Nat) : String :=
  natToHex (pbkdf2Bits password salt iterations keyLength PBKDF2_HASH)

/-- AES key derivation for private-key storage, from src part_002 lines
167-188: PBKDF2 with PBKDF2_ITERATIONS_CLIENT iterations, PBKDF2_HASH, and
an AES_KEY_LENGTH-bit AES-GCM key as output (crypto.subtle.deriveKey; the
CryptoKey is represented by its derived bits). -/
def deriveAESKeyFromPassword (password salt : String) : Nat :=
  pbkdf2Bits password salt PBKDF2_ITERATIONS_CLIENT AES_KEY_LENGTH PBKDF2_HASH

/-- The P-521 field prime, 2^521 - 1 (the curve named by ECDH_CURVE). -/
def p521 : Nat := 2 ^ 521 - 1

/-- Modelled from the spec: a generator of the P-521 group ("elliptic-curve
key agreement", §1; the group law is idealized as modular exponentiation,
which carries the same commutative exponent structure as scalar
multiplication on the curve). -/
def ecGen : Nat := 3

/-- An ECDH key pair as returned by generateECDHKeyPair (src part_002 lines
201-219).  Modelled from the spec: the host curve arithmetic and the JWK
serialization; a serialized key is identified with the underlying scalar
(private half) or group element (public half). -/
structure KeyPair where
  publicKey : Nat
  privateKey : Nat

/-- Validity of a key pair: the public half is the generator raised to the
private scalar, as produced by the host generateKey. -/
def ValidKeyPair (kp : KeyPair) : Prop :=
  kp.publicKey = ecGen ^ kp.privateKey % p521

/-- Shared-secret derivation, from src part_002 lines 259-274: ECDH
agreement between an own private key and a peer public key, the result used
directly as the AES-GCM key (crypto.subtle.deriveKey with the shared
secret; the CryptoKey is represented by the shared group element). -/
def deriveSharedSecret (privateKey publicKey : Nat) : Nat :=
  publicKey ^ privateKey % p521

/-- AES-GCM encryption of a plaintext string, from src part_002 lines
306-325: draw a fresh IV_LENGTH-byte IV (passed explicitly here), encrypt
the UTF-8 bytes, prepend the IV, and encode the whole as an opaque blob
string. -/
def aesEncrypt (plaintext : String) (key : Nat) (iv : List Nat) : String :=
  let plaintextBuffer := stringToArrayBuffer plaintext
  let ciphertext := aeadEncrypt key (natListCode iv) plaintextBuffer
  blobOfBytes (iv ++ ciphertext)

/-- AES-GCM decryption of a blob string, from src part_002 lines 334-351:
decode the blob, split off the IV_LENGTH-byte IV, decrypt the rest, decode
the plaintext bytes; a thrown exception is none. -/
def aesDecrypt (ciphertextBase64 : String) (key : Nat) : Option String :=
  match bytesOfBlob ciphertextBase64 with
  | none => none
  | some combined =>
    let iv := combined.take IV_LENGTH
    let ciphertext := combined.drop IV_LENGTH
    match aeadDecrypt key (natListCode iv) ciphertext with
    | none => none
    | some plaintextBuffer => some (arrayBufferToString plaintextBuffer)

/-- Private-key wrapping for storage, from src part_002 lines 382-385:
derive an AES key from the passphrase and salt, then aesEncrypt the
serialized private key (the fresh IV is explicit). -/
def encryptPrivateKey (privateKeyJson passphrase salt : String)
    (iv : List Nat) : String :=
  let key := deriveAESKeyFromPassword passphrase salt
  aesEncrypt privateKeyJson key iv

/-- Private-key unwrapping from storage, from src part_002 lines 395-398. -/
def decryptPrivateKey (encryptedPrivateKey passphrase salt : String) :
    Option String :=
  let key := deriveAESKeyFromPassword passphrase salt
  aesDecrypt encryptedPrivateKey key

/-- Channel identifier for a private chat, from src part_002 lines 413-418:
sort the two public-key hashes, join with a colon separator, SHA-256 the
result.  The two-element JavaScript sort is the ascending order of the
pair. -/
def generateChannelId (publicKeyHash1 publicKeyHash2 : String) : String :=
  let sorted :=
    if publicKeyHash1 ≤ publicKeyHash2 then [publicKeyHash1, publicKeyHash2]
    else [publicKeyHash2, publicKeyHash1]
  let combined := String.intercalate ":" sorted
  sha256 combined

/-- Restatement of the spec's channel formula in its own words ("sort the
two public-key hashes lexicographically, join with `:`, SHA-256 the result,
return hex", §4.6), kept separate so the code-side generateChannelId can be
compared against it. -/
def specChannelId (hashA hashB : String) : String :=
  sha256 (String.intercalate ":"
    (if hashA ≤ hashB then [hashA, hashB] else [hashB, hashA]))

/-- A chat message object.  The two trailing flags model optional
JavaScript properties: none is an absent property, some b a property set to
b. -/
structure ChatMessage where
  senderName : String
  message : String
  timestamp : String
  channel : String
  senderPublicKeyHash : String
  receiverPublicKeyHash : Option String
  messageType : String
  decrypted : Option Bool
  decryptionError : Option Bool

/-- Message sealing, from src part_002 lines 433-445: derive the shared key
once, encrypt senderName, message and timestamp each under a fresh IV
(explicit here), keep the routing fields in the clear, and set messageType
to the encrypted marker.  The output object literal carries no decrypted or
decryptionError property. -/
def encryptMessage (messageData : ChatMessage)
    (privateKey receiverPublicKey : Nat)
    (iv1 iv2 iv3 : List Nat) : ChatMessage :=
  let sharedKey := deriveSharedSecret privateKey receiverPublicKey
  { senderName := aesEncrypt messageData.senderName sharedKey iv1
    message := aesEncrypt messageData.message sharedKey iv2
    timestamp := aesEncrypt messageData.timestamp sharedKey iv3
    channel := messageData.channel
    senderPublicKeyHash := messageData.senderPublicKeyHash
    receiverPublicKeyHash := messageData.receiverPublicKeyHash
    messageType := "encrypted"
    decrypted := none
    decryptionError := none }

/-- Message opening, from src part_002 lines 455-474: derive the shared
key, decrypt the three payload fields, and return the input object spread
with the decrypted fields and decrypted set to true; if any step throws,
return the input object spread with decrypted false and decryptionError
true.  The try/catch is the match on the three Options: a failure in any
field discards all three partial results. -/
def decryptMessage (encryptedMessage : ChatMessage)
    (privateKey senderPublicKey : Nat) : ChatMessage :=
  let sharedKey := deriveSharedSecret privateKey senderPublicKey
  match aesDecrypt encryptedMessage.senderName sharedKey,
      aesDecrypt encryptedMessage.message sharedKey,
      aesDecrypt encryptedMessage.timestamp sharedKey with
  | some sn, some ms, some ts =>
    { encryptedMessage with
        senderName := sn, message := ms, timestamp := ts,
        decrypted := some true }
  | _, _, _ =>
    { encryptedMessage with
        decrypted := some false, decryptionError := some true }

/-- The unencrypted message object built by sendMessage, from
src/unnamed/part_007 lines 119-127: payload and routing fields from the
session state, messageType set to the plain-text marker. -/
def sendMessageData (username content channel timestamp senderHash : String)
    (chatmateHash : Option String) : ChatMessage :=
  { senderName := username
    message := content
    timestamp := timestamp
    channel := channel
    senderPublicKeyHash := senderHash
    receiverPublicKeyHash := chatmateHash
    messageType := "text"
    decrypted := none
    decryptionError := none }

/-- The message sendMessage submits, from src/unnamed/part_007 lines
112-136: the unencrypted object, encrypted when the channel is private and
the chatmate's public key is known. -/
def sendMessage (username content channel timestamp senderHash : String)
    (chatmateHash : Option String) (chatmatePublicKey : Option Nat)
    (privateKey : Nat) (iv1 iv2 iv3 : List Nat) : ChatMessage :=
  let messageData :=
    sendMessageData username content channel timestamp senderHash chatmateHash
  match chatmatePublicKey with
  | some pub =>
    if channel ≠ "global" then
      encryptMessage messageData privateKey pub iv1 iv2 iv3
    else messageData
  | none => messageData

/-- Client auth value computed by the registration path, from
src/cipherLink/client/src/stores/authStore.js line 72. -/
def registerClientAuth (username password : String) : String :=
  pbkdf2 password username.toLower 25000 512

/-- Client auth value computed by the login path, from
src/cipherLink/client/src/stores/authStore.js line 133. -/
def loginClientAuth (username password : String) : String :=
  pbkdf2 password username.toLower 25000 512

/-- Restatement of the spec's client-auth formula in its own words
("clientAuth(password, username) = PBKDF2(password, salt =
lowercase(username), iterations = 25000, SHA-512, 512 bits), returned
hex-encoded", §4.3), kept separate so the code-side paths can be compared
against it. -/
def specClientAuth (password username : String) : String :=
  natToHex (pbkdf2Bits password username.toLower 25000 512 "SHA-512")

/-- Concrete byte sequence of one sealed blob (the message "a" under key 5
and an all-ones IV), used to instantiate the tamper-detection theorem. -/
def c3Bytes : List Nat :=
  List.replicate 12 1 ++
    aeadEncrypt 5 (natListCode (List.replicate 12 1)) (stringToArrayBuffer "a")

/-! Infrastructure lemmas. -/

theorem natListCode_injective : ∀ {x y : List Nat},
    natListCode x = natListCode y → x = y := by
  intro x
  induction x with
  | nil =>
    intro y h
    cases y with
    | nil => rfl
    | cons c t => simp [natListCode] at h
  | cons b t ih =>
    intro y h
    cases y with
    | nil => simp [natListCode] at h
    | cons c s =>
      simp only [natListCode, Nat.add_right_cancel_iff] at h
      rw [Nat.pair_eq_pair] at h
      rw [h.1, ih h.2]

theorem char_toNat_injective {c d : Char} (h : c.toNat = d.toNat) : c = d := by
  rw [← Char.ofNat_toNat c, ← Char.ofNat_toNat d, h]

theorem map_char_toNat_injective : ∀ {x y : List Char},
    x.map Char.toNat = y.map Char.toNat → x = y := by
  intro x
  induction x with
  | nil =>
    intro y h
    cases y with
    | nil => rfl
    | cons c t => simp at h
  | cons b t ih =>
    intro y h
    cases y with
    | nil => simp at h
    | cons c s =>
      simp only [List.map_cons, List.cons.injEq] at h
      rw [char_toNat_injective h.1, ih h.2]

theorem strCode_injective {s t : String} (h : strCode s = strCode t) :
    s = t := by
  have hd : s.data = t.data :=
    map_char_toNat_injective (natListCode_injective h)
  cases s; cases t; exact congrArg String.mk hd

theorem charsBytesAux_comma_nil (acc pw : Nat) :
    charsBytesAux [','] acc pw = some [acc] := by
  rw [charsBytesAux.eq_def]; simp

theorem charsBytesAux_comma_cons (r : Char) (rs : List Char) (acc pw : Nat) :
    charsBytesAux (',' :: r :: rs) acc pw =
      Option.map (fun t => acc :: t) (charsBytesAux (r :: rs) 0 1) := by
  rw [charsBytesAux.eq_def]; simp

theorem charsBytesAux_digit (c : Char) (t : List Char) (acc pw : Nat)
    (hc : c ≠ ',') :
    charsBytesAux (c :: t) acc pw =
      charsBytesAux t (acc + (if c = '1' then 1 else 0) * pw) (2 * pw) := by
  rw [charsBytesAux.eq_def]; simp only [if_neg hc]

theorem charsNat_natChars (n : Nat) : charsNat (natChars n) = n := by
  induction n using Nat.strong_induction_on with
  | _ n ih =>
    match n with
    | 0 => simp [natChars, charsNat]
    | Nat.succ m =>
      rw [natChars, charsNat, ih ((m + 1) / 2) (by omega)]
      by_cases h : (m + 1) % 2 = 1
      · rw [if_pos h, if_pos rfl]; omega
      · rw [if_neg h, if_neg (by decide)]; omega

theorem natChars_digits (n : Nat) :
    ∀ c ∈ natChars n, c = '0' ∨ c = '1' := by
  induction n using Nat.strong_induction_on with
  | _ n ih =>
    match n with
    | 0 => intro c hc; simp [natChars] at hc
    | Nat.succ m =>
      intro c hc
      rw [natChars] at hc
      rcases List.mem_cons.mp hc with h | h
      · subst h
        by_cases h2 : (m + 1) % 2 = 1
        · rw [if_pos h2]; right; rfl
        · rw [if_neg h2]; left; rfl
      · exact ih ((m + 1) / 2) (by omega) c h

theorem charsBytesAux_digits_nil (ds : List Char)
    (hds : ∀ c ∈ ds, c = '0' ∨ c = '1') :
    ∀ acc pw, charsBytesAux (ds ++ [',']) acc pw =
      some [acc + pw * charsNat ds] := by
  induction ds with
  | nil => intro acc pw; simp [charsBytesAux_comma_nil, charsNat]
  | cons c t ih =>
    intro acc pw
    have hc : c ≠ ',' := by
      rcases hds c (by simp) with h | h <;> simp [h]
    have ht : ∀ x ∈ t, x = '0' ∨ x = '1' := fun x hx => hds x (by simp [hx])
    rw [List.cons_append, charsBytesAux_digit c _ acc pw hc, ih ht]
    have : acc + (if c = '1' then 1 else 0) * pw + 2 * pw * charsNat t =
        acc + pw * charsNat (c :: t) := by
      rw [charsNat]; ring
    rw [this]

theorem charsBytesAux_digits_cons (ds : List Char)
    (hds : ∀ c ∈ ds, c = '0' ∨ c = '1') (r : Char) (rs : List Char) :
    ∀ acc pw, charsBytesAux (ds ++ ',' :: r :: rs) acc pw =
      Option.map (fun t => (acc + pw * charsNat ds) :: t)
        (charsBytesAux (r :: rs) 0 1) := by
  induction ds with
  | nil => intro acc pw; simp [charsBytesAux_comma_cons, charsNat]
  | cons c t ih =>
    intro acc pw
    have hc : c ≠ ',' := by
      rcases hds c (by simp) with h | h <;> simp [h]
    have ht : ∀ x ∈ t, x = '0' ∨ x = '1' := fun x hx => hds x (by simp [hx])
    rw [List.cons_append, charsBytesAux_digit c _ acc pw hc, ih ht]
    have : acc + (if c = '1' then 1 else 0) * pw + 2 * pw * charsNat t =
        acc + pw * charsNat (c :: t) := by
      rw [charsNat]; ring
    rw [this]

theorem charsBytes_eq_aux (l : List Char) (h : l ≠ []) :
    charsBytes l = charsBytesAux l 0 1 := by
  cases l with
  | nil => exact absurd rfl h
  | cons c rest => rfl

theorem charsBytes_bytesChars (bs : List Nat) :
    charsBytes (bytesChars bs) = some bs := by
  induction bs with
  | nil => rfl
  | cons b t ih =>
    have hdig := natChars_digits b
    rw [show bytesChars (b :: t) = natChars b ++ ',' :: bytesChars t from rfl,
      charsBytes_eq_aux _ (by simp)]
    cases ht : bytesChars t with
    | nil =>
      have ht0 : t = [] := by
        cases t with
        | nil => rfl
        | cons x y => simp [bytesChars] at ht
      rw [show (',' :: ([] : List Char)) = [','] from rfl,
        charsBytesAux_digits_nil (natChars b) hdig 0 1,
        charsNat_natChars, ht0]
      simp
    | cons r rs =>
      rw [charsBytesAux_digits_cons (natChars b) hdig r rs 0 1,
        ← charsBytes_eq_aux (r :: rs) (by simp), ← ht, ih]
      simp [charsNat_natChars]

theorem bytesOfBlob_blobOfBytes (bs : List Nat) :
    bytesOfBlob (blobOfBytes bs) = some bs := by
  simpa [bytesOfBlob, blobOfBytes] using charsBytes_bytesChars bs

theorem ksDec_ksEnc (key ivN : Nat) : ∀ (pt : List Nat) (i : Nat),
    ksDec key ivN (ksEnc key ivN pt i) i = pt := by
  intro pt
  induction pt with
  | nil => intro i; rfl
  | cons b t ih =>
    intro i
    simp only [ksEnc, ksDec, Nat.add_sub_cancel, List.cons.injEq, true_and]
    exact ih (i + 1)

theorem ksEnc_length (key ivN : Nat) : ∀ (pt : List Nat) (i : Nat),
    (ksEnc key ivN pt i).length = pt.length := by
  intro pt
  induction pt with
  | nil => intro i; rfl
  | cons b t ih =>
    intro i
    simp only [ksEnc, List.length_cons, ih (i + 1)]

theorem ksEnc_injective (key ivN : Nat) {pt qt : List Nat} {i : Nat}
    (h : ksEnc key ivN pt i = ksEnc key ivN qt i) : pt = qt := by
  have := congrArg (fun l => ksDec key ivN l i) h
  simpa [ksDec_ksEnc] using this

theorem macTag_injective {key ivN key2 ivN2 : Nat} {pt qt : List Nat}
    (h : macTag key ivN pt = macTag key2 ivN2 qt) :
    key = key2 ∧ ivN = ivN2 ∧ pt = qt := by
  simp only [macTag, Nat.pair_eq_pair] at h
  exact ⟨h.1, h.2.1, natListCode_injective h.2.2⟩

theorem aeadEncrypt_length (key ivN : Nat) (pt : List Nat) :
    (aeadEncrypt key ivN pt).length = pt.length + 1 := by
  simp [aeadEncrypt, ksEnc_length]

theorem aeadDecrypt_eq_some_iff (key ivN : Nat) (data pt : List Nat) :
    aeadDecrypt key ivN data = some pt ↔ data = aeadEncrypt key ivN pt := by
  constructor
  · intro h
    simp only [aeadDecrypt] at h
    split_ifs at h with hc
    obtain rfl := Option.some.inj h
    exact hc.symm
  · intro h
    subst h
    simp only [aeadDecrypt, aeadEncrypt, List.dropLast_concat, ksDec_ksEnc]
    simp

theorem aeadDecrypt_aeadEncrypt (key ivN : Nat) (pt : List Nat) :
    aeadDecrypt key ivN (aeadEncrypt key ivN pt) = some pt :=
  (aeadDecrypt_eq_some_iff key ivN _ pt).mpr rfl

theorem arrayBufferToString_stringToArrayBuffer (s : String) :
    arrayBufferToString (stringToArrayBuffer s) = s := by
  simp only [arrayBufferToString, stringToArrayBuffer, List.map_map]
  have h : Char.ofNat ∘ Char.toNat = id := funext Char.ofNat_toNat
  rw [h, List.map_id]

theorem aesDecrypt_aesEncrypt (s : String) (key : Nat) (iv : List Nat)
    (hiv : iv.length = IV_LENGTH) :
    aesDecrypt (aesEncrypt s key iv) key = some s := by
  simp only [aesEncrypt, aesDecrypt, bytesOfBlob_blobOfBytes]
  rw [← hiv, List.take_left, List.drop_left, aeadDecrypt_aeadEncrypt]
  simp [arrayBufferToString_stringToArrayBuffer]

theorem deriveAESKeyFromPassword_inj {pw s pw2 s2 : String}
    (h : deriveAESKeyFromPassword pw s = deriveAESKeyFromPassword pw2 s2) :
    pw = pw2 ∧ s = s2 := by
  simp only [deriveAESKeyFromPassword, pbkdf2Bits, Nat.pair_eq_pair] at h
  exact ⟨strCode_injective h.1, strCode_injective h.2.1⟩

/-! Claim theorems. -/

/-- C1: for every two valid ECDH key pairs A and B on the modelled P-521
curve, deriveSharedSecret of A's private key with B's public key equals
deriveSharedSecret of B's private key with A's public key: the two parties
derive the same symmetric AES key. -/
theorem deriveSharedSecret_symm (A B : KeyPair)
    (hA : ValidKeyPair A) (hB : ValidKeyPair B) :
    deriveSharedSecret A.privateKey B.publicKey =
      deriveSharedSecret B.privateKey A.publicKey := by
  simp only [ValidKeyPair] at hA hB
  simp only [deriveSharedSecret, hA, hB]
  rw [← Nat.pow_mod, ← pow_mul, ← Nat.pow_mod, ← pow_mul, Nat.mul_comm]

set_option maxRecDepth 8000 in
/-- Concrete instance of C1: the key pairs with private scalars 2 and 3. -/
theorem deriveSharedSecret_symm_witness :
    ValidKeyPair ⟨9, 2⟩ ∧ ValidKeyPair ⟨27, 3⟩ ∧
      deriveSharedSecret 2 27 = deriveSharedSecret 3 9 := by
  have hbig : 1000 < p521 := by
    have h2 : (2 : Nat) ^ 10 ≤ 2 ^ 521 :=
      Nat.pow_le_pow_right (by norm_num) (by norm_num)
    have h3 : (2 : Nat) ^ 10 = 1024 := by norm_num
    simp only [p521]
    omega
  have hA : ValidKeyPair ⟨9, 2⟩ := by
    show (9 : Nat) = ecGen ^ 2 % p521
    rw [show (ecGen ^ 2 : Nat) = 9 from by norm_num [ecGen],
      Nat.mod_eq_of_lt (by omega)]
  have hB : ValidKeyPair ⟨27, 3⟩ := by
    show (27 : Nat) = ecGen ^ 3 % p521
    rw [show (ecGen ^ 3 : Nat) = 27 from by norm_num [ecGen],
      Nat.mod_eq_of_lt (by omega)]
  exact ⟨hA, hB, deriveSharedSecret_symm ⟨9, 2⟩ ⟨27, 3⟩ hA hB⟩

/-- C2: for every string s (the empty string included) and every AES key,
decrypting the encryption of s under the same key and any 12-byte IV
returns s; zero-length plaintext is not an error. -/
theorem aesEncrypt_aesDecrypt_roundtrip (s : String) (key : Nat)
    (iv : List Nat) (hiv : iv.length = IV_LENGTH) :
    aesDecrypt (aesEncrypt s key iv) key = some s :=
  aesDecrypt_aesEncrypt s key iv hiv

/-- Concrete instance of C2 at the empty plaintext. -/
theorem aesEncrypt_aesDecrypt_roundtrip_witness :
    (List.replicate 12 0).length = IV_LENGTH ∧
      aesDecrypt (aesEncrypt "" 0 (List.replicate 12 0)) 0 = some "" :=
  ⟨by decide, aesEncrypt_aesDecrypt_roundtrip "" 0 (List.replicate 12 0)
    (by decide)⟩

/-- C4: generateChannelId is symmetric in the two public-key hashes, and
equals the spec formula: the SHA-256 hex of the two hashes sorted
lexicographically and joined with a colon.  Stability across repeated calls
is purity: generateChannelId is a function of its two arguments. -/
theorem generateChannelId_comm_spec (h1 h2 : String) :
    generateChannelId h1 h2 = generateChannelId h2 h1 ∧
      generateChannelId h1 h2 = specChannelId h1 h2 := by
  constructor
  · simp only [generateChannelId]
    rcases le_or_lt h1 h2 with hle | hlt
    · rcases eq_or_lt_of_le hle with heq | hlt2
      · rw [heq]
      · rw [if_pos hle, if_neg (not_le.mpr hlt2)]
    · rw [if_neg (not_le.mpr hlt), if_pos (le_of_lt hlt)]
  · rfl

/-- C5: unwrapping a wrapped private key with the same passphrase and salt
returns the original serialized private key. -/
theorem privateKey_wrap_unwrap (pk pp salt : String) (iv : List Nat)
    (hiv : iv.length = IV_LENGTH) :
    decryptPrivateKey (encryptPrivateKey pk pp salt iv) pp salt = some pk := by
  simpa [encryptPrivateKey, decryptPrivateKey] using
    aesDecrypt_aesEncrypt pk (deriveAESKeyFromPassword pp salt) iv hiv

/-- Concrete instance of C5. -/
theorem privateKey_wrap_unwrap_witness :
    (List.replicate 12 0).length = IV_LENGTH ∧
      decryptPrivateKey
        (encryptPrivateKey "jwk" "passphrase" "salt" (List.replicate 12 0))
        "passphrase" "salt" = some "jwk" :=
  ⟨by decide, privateKey_wrap_unwrap "jwk" "passphrase" "salt"
    (List.replicate 12 0) (by decide)⟩

/-- C7: when any of the three payload fields fails to decrypt,
decryptMessage does not raise: it returns the original envelope with
decrypted set to false and decryptionError set to true.  The try/catch of
the source is the fallback row of the match; being a total function,
decryptMessage cannot propagate an exception. -/
theorem decryptMessage_error_envelope (m : ChatMessage) (priv pub : Nat)
    (h : aesDecrypt m.senderName (deriveSharedSecret priv pub) = none ∨
      aesDecrypt m.message (deriveSharedSecret priv pub) = none ∨
      aesDecrypt m.timestamp (deriveSharedSecret priv pub) = none) :
    decryptMessage m priv pub =
      { m with decrypted := some false, decryptionError := some true } := by
  simp only [decryptMessage]
  cases h1 : aesDecrypt m.senderName (deriveSharedSecret priv pub) <;>
    cases h2 : aesDecrypt m.message (deriveSharedSecret priv pub) <;>
      cases h3 : aesDecrypt m.timestamp (deriveSharedSecret priv pub) <;>
        simp_all

/-- Concrete instance of C7: a message whose senderName is not a valid
blob. -/
theorem decryptMessage_error_envelope_witness :
    aesDecrypt "x" (deriveSharedSecret 0 0) = none ∧
      decryptMessage
        ⟨"x", "y", "z", "c", "h", none, "encrypted", none, none⟩ 0 0 =
        ⟨"x", "y", "z", "c", "h", none, "encrypted", some false, some true⟩ :=
  ⟨by decide, decryptMessage_error_envelope
    ⟨"x", "y", "z", "c", "h", none, "encrypted", none, none⟩ 0 0
    (Or.inl (by decide))⟩

/-- C10: decryptMessage leaves the routing fields (channel, the two
public-key hashes, messageType) exactly as in the input, and is
all-or-nothing on the payload: either all three payload fields are
replaced by their decryptions with decrypted true, or the envelope is
returned with every payload field untouched and decryptionError true. -/
theorem decryptMessage_frame_all_or_nothing (m : ChatMessage)
    (priv pub : Nat) :
    ((decryptMessage m priv pub).channel = m.channel ∧
      (decryptMessage m priv pub).senderPublicKeyHash =
        m.senderPublicKeyHash ∧
      (decryptMessage m priv pub).receiverPublicKeyHash =
        m.receiverPublicKeyHash ∧
      (decryptMessage m priv pub).messageType = m.messageType) ∧
    ((∃ sn ms ts,
        aesDecrypt m.senderName (deriveSharedSecret priv pub) = some sn ∧
        aesDecrypt m.message (deriveSharedSecret priv pub) = some ms ∧
        aesDecrypt m.timestamp (deriveSharedSecret priv pub) = some ts ∧
        decryptMessage m priv pub =
          { m with
              senderName := sn
              message := ms
              timestamp := ts
              decrypted := some true }) ∨
      decryptMessage m priv pub =
        { m with decrypted := some false, decryptionError := some true }) := by
  simp only [decryptMessage]
  cases h1 : aesDecrypt m.senderName (deriveSharedSecret priv pub) <;>
    cases h2 : aesDecrypt m.message (deriveSharedSecret priv pub) <;>
      cases h3 : aesDecrypt m.timestamp (deriveSharedSecret priv pub) <;>
        simp_all

/-- C8 counterexample: the unencrypted message built by sendMessage has
messageType "text", which is not a member of the claimed set
containing plain, system and encrypted. -/
theorem sendMessage_messageType_counterexample :
    ¬ ((sendMessage "u" "hi" "global" "t0" "h" none none 0 [] [] []).messageType
        = "plain" ∨
      (sendMessage "u" "hi" "global" "t0" "h" none none 0 [] [] []).messageType
        = "system" ∨
      (sendMessage "u" "hi" "global" "t0" "h" none none 0 [] [] []).messageType
        = "encrypted") := by
  decide

/-- C8 amended: every message the core constructs has messageType in the
set containing text, system and encrypted (the server schema's set):
encryptMessage always sets it to "encrypted", and sendMessage sets the
messageType of an unencrypted message to "text". -/
theorem messageType_values (m : ChatMessage) (priv pub : Nat)
    (iv1 iv2 iv3 : List Nat)
    (username content channel timestamp senderHash : String)
    (chatmateHash : Option String) (chatmatePub : Option Nat)
    (privateKey : Nat) :
    (encryptMessage m priv pub iv1 iv2 iv3).messageType = "encrypted" ∧
    (sendMessageData username content channel timestamp senderHash
      chatmateHash).messageType = "text" ∧
    ((sendMessage username content channel timestamp senderHash chatmateHash
        chatmatePub privateKey iv1 iv2 iv3).messageType = "text" ∨
      (sendMessage username content channel timestamp senderHash chatmateHash
        chatmatePub privateKey iv1 iv2 iv3).messageType = "encrypted") := by
  refine ⟨rfl, rfl, ?_⟩
  cases chatmatePub with
  | none => left; rfl
  | some pub2 =>
    by_cases h : channel ≠ "global"
    · right; simp [sendMessage, encryptMessage, h]
    · left; simp [sendMessage, sendMessageData, h]

/-- C9: the registration path and the login path compute the identical
client auth value, and both equal the spec formula: the hex of
PBKDF2-SHA512 of the password with the lowercased username as salt, 25000
iterations and 512 output bits. -/
theorem clientAuth_formula_consistent (username password : String) :
    registerClientAuth username password = loginClientAuth username password ∧
      registerClientAuth username password = specClientAuth password username :=
  ⟨rfl, rfl⟩

theorem aeadDecrypt_set_ne (key ivN : Nat) (pt : List Nat) (j v : Nat)
    (hj : j < (aeadEncrypt key ivN pt).length)
    (hv : v ≠ (aeadEncrypt key ivN pt).get ⟨j, hj⟩) :
    aeadDecrypt key ivN ((aeadEncrypt key ivN pt).set j v) = none := by
  cases hd : aeadDecrypt key ivN ((aeadEncrypt key ivN pt).set j v) with
  | none => rfl
  | some x =>
    exfalso
    have hx := (aeadDecrypt_eq_some_iff _ _ _ _).mp hd
    have hlen : j < pt.length + 1 := by
      have := aeadEncrypt_length key ivN pt; omega
    by_cases hcase : j < pt.length
    · have hjk : j < (ksEnc key ivN pt 0).length := by
        rw [ksEnc_length]; exact hcase
      simp only [aeadEncrypt] at hx
      rw [List.set_append_left j v hjk] at hx
      obtain ⟨hct, hm⟩ := List.append_inj' hx (by simp)
      have hmeq : macTag key ivN pt = macTag key ivN x := by simpa using hm
      obtain ⟨-, -, rfl⟩ := macTag_injective hmeq
      apply hv
      have h1 := List.getElem_of_eq hct (by simpa using hjk)
      rw [List.getElem_set_self] at h1
      rw [h1]
      simp only [List.get_eq_getElem, aeadEncrypt]
      exact (List.getElem_append_left hjk).symm
    · have hj2 : j = pt.length := by omega
      subst hj2
      simp only [aeadEncrypt] at hx
      rw [List.set_append_right _ v
        (le_of_eq (ksEnc_length key ivN pt 0))] at hx
      simp only [ksEnc_length, Nat.sub_self, List.set_cons_zero] at hx
      obtain ⟨hct, hm⟩ := List.append_inj' hx (by simp)
      have hveq : v = macTag key ivN x := by simpa using hm
      obtain rfl := ksEnc_injective key ivN hct
      apply hv
      rw [hveq]
      simp only [List.get_eq_getElem, aeadEncrypt]
      rw [List.getElem_append_right (le_of_eq (ksEnc_length key ivN pt 0))]
      simp [ksEnc_length]

/-- C3: flipping any byte of the ciphertext-or-tag portion of a sealed
blob (any byte at an index at or past the 12-byte IV) makes decryption
under the same key fail; it never returns altered plaintext. -/
theorem aesDecrypt_tamper_detect (s : String) (key : Nat)
    (iv bytes : List Nat) (hiv : iv.length = IV_LENGTH)
    (hbytes : bytesOfBlob (aesEncrypt s key iv) = some bytes)
    (i v : Nat) (hi : IV_LENGTH ≤ i) (hlt : i < bytes.length)
    (hv : v ≠ bytes.get ⟨i, hlt⟩) :
    aesDecrypt (blobOfBytes (bytes.set i v)) key = none := by
  have hb : bytes =
      iv ++ aeadEncrypt key (natListCode iv) (stringToArrayBuffer s) := by
    simp only [aesEncrypt, bytesOfBlob_blobOfBytes] at hbytes
    exact (Option.some.inj hbytes).symm
  subst hb
  have hivi : iv.length ≤ i := by rw [hiv]; exact hi
  rw [List.set_append_right i v hivi]
  simp only [aesDecrypt, bytesOfBlob_blobOfBytes]
  rw [← hiv, List.take_left, List.drop_left]
  have hj : i - iv.length <
      (aeadEncrypt key (natListCode iv) (stringToArrayBuffer s)).length := by
    simp only [List.length_append] at hlt
    omega
  have hveq : v ≠ (aeadEncrypt key (natListCode iv)
      (stringToArrayBuffer s)).get ⟨i - iv.length, hj⟩ := by
    intro hcon
    apply hv
    rw [hcon]
    simp only [List.get_eq_getElem]
    exact (List.getElem_append_right hivi).symm
  rw [aeadDecrypt_set_ne key (natListCode iv) (stringToArrayBuffer s)
    (i - iv.length) v hj hveq]

/-- Concrete instance of C3: byte 12 (the first ciphertext byte) of a
sealed one-character message is replaced by 0. -/
theorem aesDecrypt_tamper_detect_witness :
    (List.replicate 12 1).length = IV_LENGTH ∧
    bytesOfBlob (aesEncrypt "a" 5 (List.replicate 12 1)) = some c3Bytes ∧
    IV_LENGTH ≤ 12 ∧
    ∃ hlt : 12 < c3Bytes.length,
      0 ≠ c3Bytes.get ⟨12, hlt⟩ ∧
      aesDecrypt (blobOfBytes (c3Bytes.set 12 0)) 5 = none := by
  have hbytes : bytesOfBlob (aesEncrypt "a" 5 (List.replicate 12 1)) =
      some c3Bytes := bytesOfBlob_blobOfBytes c3Bytes
  exact ⟨by decide, hbytes, by decide, by decide, by decide,
    aesDecrypt_tamper_detect "a" 5 (List.replicate 12 1) c3Bytes (by decide)
      hbytes 12 0 (by decide) (by decide) (by decide)⟩

theorem aesDecrypt_wrong_key (s : String) (key key2 : Nat) (iv : List Nat)
    (hiv : iv.length = IV_LENGTH) (hk : key2 ≠ key) :
    aesDecrypt (aesEncrypt s key iv) key2 = none := by
  simp only [aesEncrypt, aesDecrypt, bytesOfBlob_blobOfBytes]
  rw [← hiv, List.take_left, List.drop_left]
  cases hd : aeadDecrypt key2 (natListCode iv)
      (aeadEncrypt key (natListCode iv) (stringToArrayBuffer s)) with
  | none => rfl
  | some x =>
    exfalso
    have hx := (aeadDecrypt_eq_some_iff _ _ _ _).mp hd
    simp only [aeadEncrypt] at hx
    obtain ⟨-, hm⟩ := List.append_inj' hx (by simp)
    have hmeq : macTag key (natListCode iv) (stringToArrayBuffer s) =
        macTag key2 (natListCode iv) x := by simpa using hm
    exact hk ((macTag_injective hmeq).1.symm)

/-- C6: unwrapping a wrapped private key with a different passphrase or a
different salt always fails with an authentication failure; it never
returns wrong-but-accepted key material. -/
theorem privateKey_wrong_passphrase_fails (pk pp salt pp2 salt2 : String)
    (iv : List Nat) (hiv : iv.length = IV_LENGTH)
    (hne : pp2 ≠ pp ∨ salt2 ≠ salt) :
    decryptPrivateKey (encryptPrivateKey pk pp salt iv) pp2 salt2 = none := by
  have hk : deriveAESKeyFromPassword pp2 salt2 ≠
      deriveAESKeyFromPassword pp salt := by
    intro h
    obtain ⟨h1, h2⟩ := deriveAESKeyFromPassword_inj h
    rcases hne with h3 | h3
    · exact h3 h1
    · exact h3 h2
  simpa [encryptPrivateKey, decryptPrivateKey] using
    aesDecrypt_wrong_key pk (deriveAESKeyFromPassword pp salt)
      (deriveAESKeyFromPassword pp2 salt2) iv hiv hk

/-- Concrete instance of C6: wrong passphrase. -/
theorem privateKey_wrong_passphrase_fails_witness :
    (List.replicate 12 0).length = IV_LENGTH ∧
    ("q" ≠ "p" ∨ "salt" ≠ "salt") ∧
      decryptPrivateKey
        (encryptPrivateKey "jwk" "p" "salt" (List.replicate 12 0))
        "q" "salt" = none :=
  ⟨by decide, Or.inl (by decide),
    privateKey_wrong_passphrase_fails "jwk" "p" "salt" "q" "salt"
      (List.replicate 12 0) (by decide) (Or.inl (by decide))⟩

end CipherLink
